import Mathlib

/-!
A shallow embedding of `statsmodels/tsa/setar_model.py`.

This file embeds the SETAR (Self-Exciting Threshold Autoregressive) model's
hyperparameter-search and regime-partitioning core in Lean 4, working over `ℚ`
(exact arithmetic).  Each definition mirrors one construct of the Python
source:

* `searchsorted`            — `np.searchsorted` (left insertion point) on a sorted list;
* `SETARState`              — the attributes set by `SETAR.__init__`;
* `SETARState.exog`         — `add_constant(lagmat(endog, ar_order))` (constant appended);
* `SETARState.thresholdVar` — `endog[nobs_initial-delay:-delay]`;
* `SETARState.buildDatasets`— `SETAR.build_datasets`;
* `setarInit`               — the validation and attribute assignment in `SETAR.__init__`,
  with Python-2 `None` comparison semantics (`None > x` is `False`) and `np.sort(None)`
  raising an axis error;
* `npLinalgInv`/`detL`      — `np.linalg.inv` over exact rationals (errors on a
  singular matrix, as `np.linalg.inv` raises `LinAlgError`);
* `SETARState.gridSearchObjective`       — `SETAR._grid_search_objective`;
* `SETARState.selectHyperparametersGrid` — `SETAR._select_hyperparameters_grid`;
* `refineLoop`/`refine`     — the coordinate-refinement `while` loop in
  `SETAR.select_hyperparameters` (lines 239-265).
-/

/-- Errors raised by the embedded code: the three `ValueError`s of `__init__`,
the numpy axis error raised by `np.sort(None)`, `InvalidRegimeError` (carrying
the offending regime index), and numpy's `LinAlgError` for singular matrices. -/
inductive SetarError where
  | valueErrorDelay : SetarError
  | valueErrorMaxDelay : SetarError
  | valueErrorThresholds : SetarError
  | axisError : SetarError
  | invalidRegime (i : ℕ) : SetarError
  | linAlgError : SetarError
deriving DecidableEq, Repr

/-- Decidable equality for `Except` results, used to evaluate the embedded
fallible functions on concrete inputs. -/
instance {ε α : Type} [DecidableEq ε] [DecidableEq α] : DecidableEq (Except ε α) :=
  fun a b =>
    match a, b with
    | .ok x, .ok y =>
        if h : x = y then isTrue (by rw [h]) else isFalse (by simp [h])
    | .error x, .error y =>
        if h : x = y then isTrue (by rw [h]) else isFalse (by simp [h])
    | .ok _, .error _ => isFalse (by simp)
    | .error _, .ok _ => isFalse (by simp)

/-- `np.searchsorted(a, v)` with the default `side='left'`: for a sorted list `a`
this is the number of elements strictly below `v`. -/
def searchsorted (a : List ℚ) (v : ℚ) : ℕ :=
  a.countP (fun t => decide (t < v))

/-- The model attributes assigned by `SETAR.__init__`. -/
structure SETARState where
  endog : List ℚ
  order : ℕ
  ar_order : ℕ
  min_regime_frac : ℚ
  min_regime_num : ℤ
  max_delay : ℕ
  threshold_grid_size : ℕ
  delay : Option ℤ
  thresholds : Option (List ℚ)
deriving DecidableEq, Repr

namespace SETARState

/-- `self.nobs = len(self.endog) - ar_order`. -/
def nobs (m : SETARState) : ℕ := m.endog.length - m.ar_order

/-- Row `t` of `add_constant(lagmat(self.endog, ar_order))`: the `ar_order`
lagged values (zero-filled before the sample starts) followed by the appended
constant column. -/
def exogRow (m : SETARState) (t : ℕ) : List ℚ :=
  ((List.range m.ar_order).map
    (fun j => if j + 1 ≤ t then m.endog.getD (t - (j + 1)) 0 else 0)) ++ [1]

/-- `self.exog = add_constant(lagmat(self.endog, ar_order))`. -/
def exog (m : SETARState) : List (List ℚ) :=
  (List.range m.endog.length).map m.exogRow

/-- `threshold_var = self.endog[self.nobs_initial-delay:-delay]` (for
`1 ≤ delay ≤ ar_order` this keeps exactly the `nobs` values aligned with the
retained rows of `exog`). -/
def thresholdVar (m : SETARState) (delay : ℕ) : List ℚ :=
  (m.endog.drop (m.ar_order - delay)).take (m.endog.length - m.ar_order)

/-- The number of rows classified into regime `i`, i.e.
`(indicators == i).sum()` for `indicators = np.searchsorted(thresholds, threshold_var)`. -/
def regimeObsCount (m : SETARState) (delay : ℕ) (thresholds : List ℚ) (i : ℕ) : ℕ :=
  ((m.thresholdVar delay).map (fun v => searchsorted thresholds v)).countP
    (fun x => decide (x = i))

end SETARState

/-- One regime block of a partitioned row:
`np.multiply(exog_transpose, indicators == i).T` restricted to one row — the
row's regressors kept when the row's indicator equals `i`, zeroed otherwise. -/
def regimeMaskedRow (row : List ℚ) (ind : ℕ) (i : ℕ) : List ℚ :=
  row.map (fun x => if ind = i then x else 0)

/-- One row of `np.concatenate(exog_list, 1)`: the regime blocks of the row,
concatenated in regime order. -/
def partitionedRow (row : List ℚ) (ind : ℕ) (order : ℕ) : List ℚ :=
  (List.range order).flatMap (fun i => regimeMaskedRow row ind i)

namespace SETARState

/-- `SETAR.build_datasets(delay, thresholds, order)`: classifies each retained
row by `np.searchsorted(thresholds, threshold_var)`, raises
`InvalidRegimeError` on the first regime with fewer than `min_regime_num`
observations, and otherwise returns the response together with the
regime-partitioned design matrix. -/
def buildDatasets (m : SETARState) (delay : ℕ) (thresholds : List ℚ) (order : ℕ) :
    Except SetarError (List ℚ × List (List ℚ)) :=
  match (List.range order).find?
      (fun i => decide ((m.regimeObsCount delay thresholds i : ℤ) < m.min_regime_num)) with
  | some i => .error (.invalidRegime i)
  | none =>
      .ok (m.endog.drop m.ar_order,
        ((m.exog.drop m.ar_order).zip
            ((m.thresholdVar delay).map (fun v => searchsorted thresholds v))).map
          (fun p => partitionedRow p.1 p.2 order))

end SETARState

/-- Python-2 comparison `d < 1` where `d` may be `None` (`None` compares below
every integer, so `None < 1` is `True`; but the guard `delay is not None`
short-circuits first in the source, hence `none ↦ false`). -/
def optLtOne : Option ℤ → Bool
  | none => false
  | some d => decide (d < 1)

/-- Python-2 comparison `d > b` where `d` may be `None` (`None > b` is `False`). -/
def optGt (d : Option ℤ) (b : ℤ) : Bool :=
  match d with
  | none => false
  | some x => decide (b < x)

/-- `np.sort` applied to the `thresholds` argument: `np.sort(None)` raises an
axis error (a 0-d array cannot be sorted along axis −1); otherwise it sorts. -/
def npSortOpt : Option (List ℚ) → Except SetarError (List ℚ)
  | none => .error .axisError
  | some l => .ok (l.insertionSort (· ≤ ·))

/-- `SETAR.__init__`: the three validation checks (with Python-2 `None`
comparison semantics), then the attribute assignments, including the
unconditional `self.thresholds = np.sort(thresholds)`. -/
def setarInit (endog : List ℚ) (order ar_order : ℕ) (delay : Option ℤ)
    (thresholds : Option (List ℚ)) (min_regime_frac : ℚ) (max_delay : Option ℤ)
    (threshold_grid_size : ℕ) : Except SetarError SETARState :=
  -- `if delay is not None and delay < 1 or delay > ar_order:`
  if optLtOne delay || optGt delay (ar_order : ℤ) then
    .error .valueErrorDelay
  -- `if delay is None and max_delay > ar_order:`
  else if delay.isNone && optGt max_delay (ar_order : ℤ) then
    .error .valueErrorMaxDelay
  -- `if thresholds is not None and not len(thresholds)+1 == order:`
  else if (match thresholds with
           | none => false
           | some th => decide (¬ (th.length + 1 = order))) then
    .error .valueErrorThresholds
  else
    match npSortOpt thresholds with
    | .error e => .error e
    | .ok sortedTh =>
        .ok { endog := endog
              order := order
              ar_order := ar_order
              min_regime_frac := min_regime_frac
              min_regime_num := ⌈min_regime_frac * ((endog.length - ar_order : ℕ) : ℚ)⌉
              max_delay := (match max_delay with
                            | some md => md.toNat
                            | none => ar_order)
              threshold_grid_size := threshold_grid_size
              delay := delay
              thresholds := some sortedTh }

/-! ## Exact-rational matrices as lists of rows (the numpy arrays of the source) -/

/-- Transpose of a row-list matrix. -/
def matTranspose (A : List (List ℚ)) : List (List ℚ) :=
  (List.range (A.headD []).length).map (fun j => A.map (fun r => r.getD j 0))

/-- Dot product of two rows. -/
def dotL (u v : List ℚ) : ℚ := (List.zipWith (· * ·) u v).sum

/-- Matrix product `A.dot(B)`. -/
def matMul (A B : List (List ℚ)) : List (List ℚ) :=
  A.map (fun r => (matTranspose B).map (fun c => dotL r c))

/-- Matrix-vector product `A.dot(v)`. -/
def matVec (A : List (List ℚ)) (v : List ℚ) : List ℚ := A.map (fun r => dotL r v)

/-- Entrywise matrix difference. -/
def matSub (A B : List (List ℚ)) : List (List ℚ) :=
  List.zipWith (fun r s => List.zipWith (· - ·) r s) A B

/-- Entrywise vector difference. -/
def vecSub (u v : List ℚ) : List ℚ := List.zipWith (· - ·) u v

/-- Determinant by first-row Laplace expansion (fuel = number of rows). -/
def detLAux : ℕ → List (List ℚ) → ℚ
  | 0, _ => 1
  | _, [] => 1
  | fuel + 1, r :: rest =>
      (List.range r.length).foldl
        (fun acc j =>
          acc + (-1 : ℚ) ^ j * r.getD j 0 *
            detLAux fuel (rest.map (fun row => row.eraseIdx j)))
        0

/-- Determinant of a square row-list matrix. -/
def detL (A : List (List ℚ)) : ℚ := detLAux A.length A

/-- The minor of `A` obtained by deleting row `i` and column `j`. -/
def minorL (A : List (List ℚ)) (i j : ℕ) : List (List ℚ) :=
  (A.eraseIdx i).map (fun r => r.eraseIdx j)

/-- `np.linalg.inv` over exact rationals: raises `LinAlgError` on a singular
matrix, otherwise returns the inverse (adjugate over determinant). -/
def npLinalgInv (A : List (List ℚ)) : Except SetarError (List (List ℚ)) :=
  let d := detL A
  if d = 0 then .error .linAlgError
  else
    .ok ((List.range A.length).map (fun i =>
      (List.range A.length).map (fun j =>
        (-1 : ℚ) ^ (i + j) * detL (minorL A j i) / d)))

namespace SETARState

/-- `SETAR._grid_search_objective(delay, thresholds, XX, resids)`: builds the
candidate partition at `order = len(thresholds)+1`, drops the last regime's
`k = ar_order+1` columns to get `X1`, forms
`Mn = inv(X1'X1 - (X'X1)' XX (X'X1))` and returns
`resids' X1 Mn X1' resids`.  `InvalidRegimeError` from the partitioner and
`LinAlgError` from the inversion propagate as errors. -/
def gridSearchObjective (m : SETARState) (delay : ℕ) (thresholds : List ℚ)
    (XX : List (List ℚ)) (resids : List ℚ) : Except SetarError ℚ :=
  match m.buildDatasets delay thresholds (thresholds.length + 1) with
  | .error e => .error e
  | .ok built =>
      let exogP := built.2
      let k := m.ar_order + 1
      let X1 := exogP.map (fun r => r.take (r.length - k))
      let X := m.exog.drop m.ar_order
      let X1X1 := matMul (matTranspose X1) X1
      let XX1 := matMul (matTranspose X) X1
      match npLinalgInv (matSub X1X1 (matMul (matMul (matTranspose XX1) XX) XX1)) with
      | .error e => .error e
      | .ok Mn =>
          .ok (dotL resids (matVec (matMul (matMul X1 Mn) (matTranspose X1)) resids))

end SETARState

/-- `np.unique(np.sort(x))`: the sorted list of distinct values. -/
def uniqueSorted (l : List ℚ) : List ℚ := (l.insertionSort (· ≤ ·)).dedup

/-- `np.arange(a, b, s)` for integer-valued arguments with positive step
(fuel-driven so that it evaluates by kernel reduction). -/
def arangeAux (s b : ℤ) : ℤ → ℕ → List ℤ
  | _, 0 => []
  | a, fuel + 1 => if a < b then a :: arangeAux s b (a + s) fuel else []

/-- `np.arange(a, b, s)` (integer values, step `s ≥ 1`). -/
def arangeInt (a b s : ℤ) : List ℤ := arangeAux s b a (b - a).toNat

namespace SETARState

/-- The per-delay candidate threshold grid of `_select_hyperparameters_grid`:
the unique sorted values of `endog[:-delay]`, indexed by
`np.arange(min_regime_num, nobs - min_regime_num, max(floor(nobs/grid_size), 1))`. -/
def thresholdGridFor (m : SETARState) (delay : ℕ) : List ℚ :=
  let tvar := uniqueSorted (m.endog.take (m.endog.length - delay))
  let nobsU : ℤ := tvar.length
  let step : ℤ := max (nobsU / (m.threshold_grid_size : ℤ)) 1
  (arangeInt m.min_regime_num (nobsU - m.min_regime_num) step).map
    (fun i => tvar.getD i.toNat 0)

end SETARState

/-- The default delay grid `range(2, self.max_delay+1)`. -/
def defaultDelayGrid (max_delay : ℕ) : List ℕ := List.range' 2 (max_delay - 1)

namespace SETARState

/-- The `(delay, threshold)` candidates enumerated by the two nested loops of
`_select_hyperparameters_grid`, in loop order. -/
def gridCandidates (m : SETARState) (delayGrid : List ℕ) : List (ℕ × ℚ) :=
  delayGrid.flatMap (fun d => (m.thresholdGridFor d).map (fun t => (d, t)))

end SETARState

/-- The accumulating loop of `_select_hyperparameters_grid`: starting from
`max_obj = 0` and `params = (None, None)`, evaluates each candidate, updates on
a strictly larger objective, skips candidates raising `InvalidRegimeError`, and
lets every other exception propagate. -/
def gridFold (objective : ℕ → ℚ → Except SetarError ℚ) :
    List (ℕ × ℚ) → Option ℕ × Option ℚ → ℚ →
    Except SetarError ((Option ℕ × Option ℚ) × ℚ)
  | [], params, maxObj => .ok (params, maxObj)
  | c :: rest, params, maxObj =>
      match objective c.1 c.2 with
      | .ok v =>
          if maxObj < v then gridFold objective rest (some c.1, some c.2) v
          else gridFold objective rest params maxObj
      | .error (.invalidRegime _) => gridFold objective rest params maxObj
      | .error e => .error e

namespace SETARState

/-- `SETAR._select_hyperparameters_grid(thresholds, threshold_grid_size, XX,
resids, delay_grid)`: the grid search over delay × threshold candidates.  The
objective evaluation (`self._grid_search_objective(delay, np.sort([threshold] +
thresholds), XX, resids)` in the source) is abstracted as the `objective`
argument applied to `np.sort([threshold] + thresholds)`. -/
def selectHyperparametersGrid (m : SETARState)
    (objective : ℕ → List ℚ → Except SetarError ℚ) (thresholds : List ℚ)
    (delayGrid : Option (List ℕ)) : Except SetarError ((Option ℕ × Option ℚ) × ℚ) :=
  gridFold (fun d t => objective d ((t :: thresholds).insertionSort (· ≤ ·)))
    (m.gridCandidates (delayGrid.getD (defaultDelayGrid m.max_delay))) (none, none) 0

/-- The cached baseline quantities of `select_hyperparameters`:
`XX = inv(exog'exog)` and the SETAR(1) residuals
`endog - exog.dot(XX.dot(exog'.dot(endog)))`. -/
def baselineCtx (m : SETARState) : Except SetarError (List (List ℚ) × List ℚ) :=
  let endogT := m.endog.drop m.ar_order
  let X := m.exog.drop m.ar_order
  match npLinalgInv (matMul (matTranspose X) X) with
  | .error e => .error e
  | .ok XX =>
      .ok (XX, vecSub endogT (matVec X (matVec XX (matVec (matTranspose X) endogT))))

end SETARState

/-! ## The coordinate-refinement loop (`select_hyperparameters`, lines 239-265)

The per-position proposal — in the source,
`self._select_hyperparameters_grid(thresholds[:j] + thresholds[j+1:], ...,
delay_grid=[delay])` followed by taking `params[1]` — is abstracted as a
function `g` from the list of the other thresholds to the proposed value. -/

/-- One full sweep of the inner `for j in range(i)` loop: position `j`'s
proposal is computed from the *current* vector with position `j` removed
(every position is recomputed from the same pre-sweep vector). -/
def sweepOnce (g : List ℚ → ℚ) (thresholds : List ℚ) : List ℚ :=
  (List.range thresholds.length).map (fun j => g (thresholds.eraseIdx j))

/-- The observable state when the `while True` loop exits: the `thresholds`
variable, the `proposed` variable, the `iteration` counter, and whether the
max-iteration warning was printed. -/
structure RefineResult where
  thresholds : List ℚ
  proposed : List ℚ
  sweeps : ℕ
  warned : Bool
deriving DecidableEq, Repr

/-- The `while True` loop: increment `iteration`, compute the sweep's
proposal, stop on exact equality, stop with a warning once `iteration >
maxiter` (discarding the proposal), otherwise adopt the proposal
(`thresholds = proposed[:]`) and continue.  `fuel` is an upper bound on the
remaining sweeps; the loop is exited before fuel can run out whenever
`iteration + fuel = maxiter + 1` at entry. -/
def refineLoop (g : List ℚ → ℚ) (maxiter : ℕ) :
    ℕ → ℕ → List ℚ → RefineResult
  | 0, iteration, thresholds => ⟨thresholds, thresholds, iteration, false⟩
  | fuel + 1, iteration, thresholds =>
      let it := iteration + 1
      let p := sweepOnce g thresholds
      if p = thresholds then ⟨thresholds, p, it, false⟩
      else if maxiter < it then ⟨thresholds, p, it, true⟩
      else refineLoop g maxiter fuel it p

/-- The refinement loop as run by `select_hyperparameters`: `iteration = 0`,
`maxiter = 100`. -/
def refine (g : List ℚ → ℚ) (thresholds : List ℚ) : RefineResult :=
  refineLoop g 100 101 0 thresholds

/-! ## Concrete instances used by witnesses and counterexamples -/

/-- A small concrete model state: series `1, 3, 2, 5, 4, 6`, two regimes,
`ar_order = 2`, `min_regime_num = 1` (`= ⌈(1/4)·4⌉`), `max_delay = 2`. -/
def exM3 : SETARState :=
  { endog := [1, 3, 2, 5, 4, 6]
    order := 2
    ar_order := 2
    min_regime_frac := 1/4
    min_regime_num := 1
    max_delay := 2
    threshold_grid_size := 100
    delay := none
    thresholds := none }

/-- An oscillating per-position proposal: flips between `0` and `1`, so the
two-threshold vector alternates between `[0, 0]` and `[1, 1]` and never
converges. -/
def oscStepA (l : List ℚ) : ℚ := if l.headD 0 = 0 then 1 else 0

/-- A second oscillating proposal (flips between `2` and `1`, so `[2, 2]` and
`[1, 1]` alternate). -/
def oscStepB (l : List ℚ) : ℚ := if l.headD 0 = 2 then 1 else 2

/-! ## The refinement loop: characterisation (claims C1 and C7) -/

/-- Full characterisation of the `while True` refinement loop, by induction on
the remaining iteration budget: the loop performs between `iteration + 1` and
`maxiter + 1` sweeps; the `proposed` variable at exit holds the final sweep's
proposal; without a warning the final proposal equals the returned vector
(convergence); with a warning the loop has performed exactly `maxiter + 1`
sweeps and the final proposal differs from the returned vector (it was
discarded); and any extra iteration budget leaves the result unchanged. -/
theorem refineLoop_spec (g : List ℚ → ℚ) (maxiter : ℕ) :
    ∀ (fuel iteration : ℕ) (t : List ℚ),
      iteration + fuel = maxiter + 1 → iteration ≤ maxiter →
      iteration < (refineLoop g maxiter fuel iteration t).sweeps ∧
      (refineLoop g maxiter fuel iteration t).sweeps ≤ maxiter + 1 ∧
      (refineLoop g maxiter fuel iteration t).proposed
        = sweepOnce g (refineLoop g maxiter fuel iteration t).thresholds ∧
      ((refineLoop g maxiter fuel iteration t).warned = false →
        (refineLoop g maxiter fuel iteration t).proposed
          = (refineLoop g maxiter fuel iteration t).thresholds) ∧
      ((refineLoop g maxiter fuel iteration t).warned = true →
        (refineLoop g maxiter fuel iteration t).sweeps = maxiter + 1 ∧
        (refineLoop g maxiter fuel iteration t).proposed
          ≠ (refineLoop g maxiter fuel iteration t).thresholds) ∧
      (∀ extra, refineLoop g maxiter (fuel + extra) iteration t
        = refineLoop g maxiter fuel iteration t) := by
  intro fuel
  induction fuel with
  | zero => intro iteration t hsum hle; omega
  | succ fuel ih =>
      intro iteration t hsum hle
      by_cases hconv : sweepOnce g t = t
      · have hunf : ∀ f, refineLoop g maxiter (f + 1) iteration t
            = ⟨t, sweepOnce g t, iteration + 1, false⟩ := by
          intro f; simp [refineLoop, hconv]
        rw [hunf]
        refine ⟨show iteration < iteration + 1 by omega,
          show iteration + 1 ≤ maxiter + 1 by omega, rfl, fun _ => hconv,
          fun hw => by exact absurd hw (by simp), ?_⟩
        intro extra
        have heq : fuel + 1 + extra = (fuel + extra) + 1 := by omega
        rw [heq, hunf]
      · by_cases hcap : maxiter < iteration + 1
        · have hunf : ∀ f, refineLoop g maxiter (f + 1) iteration t
              = ⟨t, sweepOnce g t, iteration + 1, true⟩ := by
            intro f; simp [refineLoop, hconv, hcap]
          rw [hunf]
          refine ⟨show iteration < iteration + 1 by omega,
            show iteration + 1 ≤ maxiter + 1 by omega, rfl,
            fun hw => by exact absurd hw (by simp),
            fun _ => ⟨show iteration + 1 = maxiter + 1 by omega, hconv⟩, ?_⟩
          intro extra
          have heq : fuel + 1 + extra = (fuel + extra) + 1 := by omega
          rw [heq, hunf]
        · have hunf : ∀ f, refineLoop g maxiter (f + 1) iteration t
              = refineLoop g maxiter f (iteration + 1) (sweepOnce g t) := by
            intro f; simp [refineLoop, hconv, hcap]
          rw [hunf]
          have hrec := ih (iteration + 1) (sweepOnce g t) (by omega) (by omega)
          refine ⟨by have h1 := hrec.1; omega, hrec.2.1, hrec.2.2.1, hrec.2.2.2.1,
            hrec.2.2.2.2.1, ?_⟩
          intro extra
          have heq : fuel + 1 + extra = (fuel + extra) + 1 := by omega
          rw [heq, hunf, hrec.2.2.2.2.2 extra]

/-- Claim C1 (amended): in the coordinate-refinement loop, a differing proposal
is adopted and sweeping continues while `iteration ≤ maxiter`; once the cap is
exceeded the warning is emitted and the search keeps the vector adopted
*before* the final sweep — the final sweep's proposal differs from the returned
vector and is discarded (applying one more sweep to the returned vector
reproduces the discarded proposal). -/
theorem refine_cap_returns_previous (g : List ℚ → ℚ) (t : List ℚ) :
    ((refine g t).warned = true →
      (refine g t).proposed = sweepOnce g (refine g t).thresholds ∧
      (refine g t).proposed ≠ (refine g t).thresholds ∧
      (refine g t).sweeps = 101) ∧
    ((refine g t).warned = false →
      sweepOnce g (refine g t).thresholds = (refine g t).thresholds) ∧
    (∀ fuel it t', it < 100 → sweepOnce g t' ≠ t' →
      refineLoop g 100 (fuel + 1) it t' = refineLoop g 100 fuel (it + 1) (sweepOnce g t')) := by
  have h := refineLoop_spec g 100 101 0 t rfl (by omega)
  unfold refine
  refine ⟨fun hw => ⟨h.2.2.1, (h.2.2.2.2.1 hw).2, (h.2.2.2.2.1 hw).1⟩,
    fun hw => by rw [← h.2.2.1]; exact h.2.2.2.1 hw, ?_⟩
  intro fuel it t' hit hne
  simp [refineLoop, hne, Nat.not_lt.mpr (by omega : it + 1 ≤ 100)]

/-- Claim C1 (counterexample): with the oscillating proposal starting from
`[0, 0]`, the cap is exceeded (warning emitted) yet the returned vector is
*not* the final sweep's proposal — the last proposal is discarded. -/
theorem refine_cap_drops_final_proposal :
    (refine oscStepA [0, 0]).warned = true ∧
    (refine oscStepA [0, 0]).thresholds ≠ (refine oscStepA [0, 0]).proposed := by
  decide

/-- Claim C1 (witness): the amended theorem applied to the oscillating
proposal: the loop warns, and one further sweep of the returned vector gives
the discarded proposal. -/
theorem refine_cap_returns_previous_witness :
    (refine oscStepA [0, 0]).proposed = sweepOnce oscStepA (refine oscStepA [0, 0]).thresholds :=
  ((refine_cap_returns_previous oscStepA [0, 0]).1 (by decide)).1

/-- Claim C7 (amended): the refinement loop always terminates — it either
converges (no warning, and the final sweep's proposal equals the returned
vector) or stops with the non-convergence warning after exactly
`maxiter + 1 = 101` sweeps; giving the loop any extra iteration budget never
changes the result, so it never loops unboundedly. -/
theorem refine_terminates (g : List ℚ → ℚ) (t : List ℚ) :
    (refine g t).sweeps ≤ 101 ∧
    ((refine g t).warned = true ∧ (refine g t).sweeps = 101 ∨
      (refine g t).warned = false ∧
        sweepOnce g (refine g t).thresholds = (refine g t).thresholds) ∧
    (∀ extra, refineLoop g 100 (101 + extra) 0 t = refine g t) := by
  have h := refineLoop_spec g 100 101 0 t rfl (by omega)
  unfold refine
  refine ⟨h.2.1, ?_, h.2.2.2.2.2⟩
  cases hw : (refineLoop g 100 101 0 t).warned with
  | true => exact Or.inl ⟨rfl, (h.2.2.2.2.1 hw).1⟩
  | false => exact Or.inr ⟨rfl, by rw [← h.2.2.1]; exact h.2.2.2.1 hw⟩

/-- Claim C7 (counterexample): with an oscillating proposal the loop performs
101 sweeps — strictly more than `maxiter = 100` — before stopping with the
warning, so it does not stop within `maxiter` sweeps. -/
theorem refine_exceeds_maxiter_sweeps :
    (refine oscStepB [2, 2]).warned = true ∧ 100 < (refine oscStepB [2, 2]).sweeps := by
  decide

/-! ## Construction (claims C2 and C8) -/

/-- Claim C2: constructing a SETAR model with `thresholds` (and `delay`) left
unsupplied *always fails* at construction: the unconditional
`self.thresholds = np.sort(thresholds)` executes `np.sort(None)`, which raises
(a 0-d array cannot be sorted along axis −1).  The lazy
first-`fit` hyperparameter search can therefore never be reached. -/
theorem setarInit_unsupplied_thresholds_raises (endog : List ℚ) (order ar_order : ℕ)
    (min_regime_frac : ℚ) (threshold_grid_size : ℕ) :
    setarInit endog order ar_order none none min_regime_frac none threshold_grid_size
      = .error .axisError := rfl

/-- Claim C8: when a delay value is supplied, construction fails with the
delay `ValueError` exactly when `delay < 1` or `delay > ar_order`; a supplied
delay in `[1, ar_order]` passes this validation (construction never produces
the delay error for it). -/
theorem setarInit_delay_validation (endog : List ℚ) (order ar_order : ℕ) (d : ℤ)
    (thresholds : Option (List ℚ)) (min_regime_frac : ℚ) (max_delay : Option ℤ)
    (threshold_grid_size : ℕ) :
    setarInit endog order ar_order (some d) thresholds min_regime_frac max_delay
        threshold_grid_size = .error .valueErrorDelay
      ↔ (d < 1 ∨ (ar_order : ℤ) < d) := by
  by_cases h1 : d < 1
  · simp [setarInit, optLtOne, optGt, h1]
  · by_cases h2 : (ar_order : ℤ) < d
    · simp [setarInit, optLtOne, optGt, h1, h2]
    · cases thresholds with
      | none => simp [setarInit, optLtOne, optGt, npSortOpt, h1, h2]
      | some th =>
          by_cases h3 : th.length + 1 = order <;>
            simp [setarInit, optLtOne, optGt, npSortOpt, h1, h2, h3]

/-! ## Regime classification (claim C10) -/

/-- On a strictly ascending list, the left-insertion count is at most `k`
exactly when `v` does not exceed the `k`-th element. -/
theorem searchsorted_le_iff (th : List ℚ) (hs : th.Pairwise (· < ·)) (v : ℚ) :
    ∀ k, (hk : k < th.length) → (searchsorted th v ≤ k ↔ v ≤ th.get ⟨k, hk⟩) := by
  induction th with
  | nil => intro k hk; simp at hk
  | cons a rest ih =>
      have ha : ∀ b ∈ rest, a < b := (List.pairwise_cons.mp hs).1
      have hrest := (List.pairwise_cons.mp hs).2
      intro k hk
      cases k with
      | zero =>
          by_cases hav : a < v
          · have hcount : searchsorted (a :: rest) v
                = rest.countP (fun t => decide (t < v)) + 1 := by
              simp [searchsorted, List.countP_cons, hav]
            constructor
            · intro hle; rw [hcount] at hle; omega
            · intro hva; exact absurd hav (not_lt.mpr hva)
          · have hz : rest.countP (fun t => decide (t < v)) = 0 := by
              rw [List.countP_eq_zero]
              intro b hb
              simp only [decide_eq_true_eq]
              exact not_lt.mpr (le_trans (not_lt.mp hav) (le_of_lt (ha b hb)))
            have hcount : searchsorted (a :: rest) v = 0 := by
              simp [searchsorted, List.countP_cons, hav, hz]
            rw [hcount]
            exact iff_of_true (Nat.zero_le 0) (not_lt.mp hav)
      | succ k =>
          have hk' : k < rest.length := by simpa using hk
          have hget : (a :: rest).get ⟨k + 1, hk⟩ = rest.get ⟨k, hk'⟩ := rfl
          by_cases hav : a < v
          · have hcount : searchsorted (a :: rest) v = searchsorted rest v + 1 := by
              simp [searchsorted, List.countP_cons, hav]
            rw [hcount, hget]
            constructor
            · intro h; exact (ih hrest k hk').mp (by omega)
            · intro h; have := (ih hrest k hk').mpr h; omega
          · have hz : rest.countP (fun t => decide (t < v)) = 0 := by
              rw [List.countP_eq_zero]
              intro b hb
              simp only [decide_eq_true_eq]
              exact not_lt.mpr (le_trans (not_lt.mp hav) (le_of_lt (ha b hb)))
            have hcount : searchsorted (a :: rest) v = 0 := by
              simp [searchsorted, List.countP_cons, hav, hz]
            have hvk : v ≤ rest.get ⟨k, hk'⟩ :=
              le_of_lt (lt_of_le_of_lt (not_lt.mp hav) (ha _ (rest.get_mem k hk')))
            rw [hcount, hget]
            exact iff_of_true (Nat.zero_le _) hvk

/-- Claim C10: regime classification is left-open/right-closed.  For strictly
ascending thresholds: a threshold-variable value equal to `thresholds[k]` is
assigned regime `k` (the lower of the two adjacent regimes); and in general the
regime index is `≤ k` iff the value is `≤ thresholds[k]`, and `> k` iff the
value is `> thresholds[k]` — i.e. regime `0` is `(-∞, thresholds[0]]`, regime
`k` is `(thresholds[k-1], thresholds[k]]`, and the last regime is
`(thresholds[order-2], ∞)`. -/
theorem searchsorted_left_open_right_closed (th : List ℚ)
    (hs : th.Pairwise (· < ·)) (v : ℚ) :
    (∀ k, (hk : k < th.length) → v = th.get ⟨k, hk⟩ → searchsorted th v = k) ∧
    (∀ k, (hk : k < th.length) → (searchsorted th v ≤ k ↔ v ≤ th.get ⟨k, hk⟩)) ∧
    (∀ k, (hk : k < th.length) → (k < searchsorted th v ↔ th.get ⟨k, hk⟩ < v)) := by
  have hle := searchsorted_le_iff th hs v
  have hlt : ∀ k, (hk : k < th.length) →
      (k < searchsorted th v ↔ th.get ⟨k, hk⟩ < v) := by
    intro k hk
    constructor
    · intro hks
      by_contra hc
      exact absurd ((hle k hk).mpr (not_lt.mp hc)) (by omega)
    · intro hkv
      by_contra hc
      exact absurd ((hle k hk).mp (by omega)) (not_le.mpr hkv)
  refine ⟨?_, hle, hlt⟩
  intro k hk hv
  have h1 : searchsorted th v ≤ k := (hle k hk).mpr (le_of_eq hv)
  cases k with
  | zero => omega
  | succ j =>
      have hj : j < th.length := by omega
      have hjk : th.get ⟨j, hj⟩ < th.get ⟨j + 1, hk⟩ :=
        (List.pairwise_iff_get.mp hs) ⟨j, hj⟩ ⟨j + 1, hk⟩ (by simp)
      have h2 : j < searchsorted th v := (hlt j hj).mpr (hv ▸ hjk)
      omega

/-- Claim C10 (witness): with thresholds `[1, 3]`, the boundary values `1` and
`3` are classified into regimes `0` and `1` respectively. -/
theorem searchsorted_boundary_witness :
    searchsorted [(1 : ℚ), 3] 1 = 0 ∧ searchsorted [(1 : ℚ), 3] 3 = 1 :=
  ⟨(searchsorted_left_open_right_closed [1, 3] (by decide) 1).1 0 (by decide) rfl,
   (searchsorted_left_open_right_closed [1, 3] (by decide) 3).1 1 (by decide) rfl⟩

/-! ## Partition masks (claim C5) -/

/-- Row `r` of the retained design `self.exog[self.nobs_initial:]` is the lag
row for time `ar_order + r`. -/
theorem exog_drop_getD (m : SETARState) (r : ℕ) (hr : m.ar_order + r < m.endog.length) :
    (m.exog.drop m.ar_order).getD r [] = m.exogRow (m.ar_order + r) := by
  simp [SETARState.exog, List.getD_eq_getElem?_getD, List.getElem?_drop,
    List.getElem?_map, List.getElem?_range, hr]

/-- Claim C5: the regime masks used by `build_datasets` are mutually exclusive
and collectively exhaustive — every retained row has its regressors present
(not all zeroed) in exactly one regime block of the partitioned design. -/
theorem partition_exactly_one_regime (m : SETARState) (delay order r : ℕ)
    (th : List ℚ) (horder : 2 ≤ order) (hlen : th.length + 1 = order)
    (hs : th.Pairwise (· < ·)) (hd1 : 1 ≤ delay) (hd2 : delay ≤ m.ar_order)
    (hr : r < m.nobs) :
    ∃! i : ℕ, i < order ∧
      regimeMaskedRow ((m.exog.drop m.ar_order).getD r [])
          (searchsorted th ((m.thresholdVar delay).getD r 0)) i
        ≠ List.replicate ((m.exog.drop m.ar_order).getD r []).length 0 := by
  set row := (m.exog.drop m.ar_order).getD r [] with hrow
  set ind := searchsorted th ((m.thresholdVar delay).getD r 0) with hind
  have hindlt : ind < order := by
    have hcle : ind ≤ th.length := List.countP_le_length _
    omega
  have hone : (1 : ℚ) ∈ row := by
    have hlt : m.ar_order + r < m.endog.length := by
      have hn := hr; unfold SETARState.nobs at hn; omega
    rw [hrow, exog_drop_getD m r hlt]
    unfold SETARState.exogRow
    exact List.mem_append_right _ (List.mem_singleton.mpr rfl)
  have hmask_eq : regimeMaskedRow row ind ind = row := by
    simp [regimeMaskedRow]
  have hmask_ne : ∀ j, j ≠ ind → regimeMaskedRow row ind j
      = List.replicate row.length 0 := by
    intro j hj
    have hne : ¬ (ind = j) := fun h => hj h.symm
    simp [regimeMaskedRow, hne, List.map_const']
  refine ⟨ind, ⟨hindlt, ?_⟩, ?_⟩
  · rw [hmask_eq]
    intro hcontra
    have h0 : (1 : ℚ) ∈ List.replicate row.length (0 : ℚ) := hcontra ▸ hone
    have h1 := List.eq_of_mem_replicate h0
    norm_num at h1
  · intro j hj
    by_contra hne
    exact hj.2 (hmask_ne j hne)

/-- Claim C5 (witness): in the concrete model, row 0 with delay 2 and
threshold list `[2]` is present in exactly one of the two regime blocks. -/
theorem partition_exactly_one_regime_witness :
    ∃! i : ℕ, i < 2 ∧
      regimeMaskedRow ((exM3.exog.drop exM3.ar_order).getD 0 [])
          (searchsorted [2] ((exM3.thresholdVar 2).getD 0 0)) i
        ≠ List.replicate ((exM3.exog.drop exM3.ar_order).getD 0 []).length 0 :=
  partition_exactly_one_regime exM3 2 2 0 [2] (by decide) (by decide) (by decide)
    (by decide) (by decide) (by decide)

/-! ## Regime-size validation (claim C4) -/

/-- Claim C4: for a delay in `[1, ar_order]` and a sorted threshold list of
length `order - 1`, with `min_regime_num = ⌈min_regime_frac · nobs⌉` as set by
construction, `build_datasets` raises exactly when some regime has strictly
fewer than `min_regime_num` observations, and every raised error is an
`InvalidRegimeError` identifying an offending regime.  (The embedded
`buildDatasets` is a pure function of the model state, mirroring the source
method, which only reads attributes — so a raising call modifies no state.) -/
theorem buildDatasets_invalid_iff (m : SETARState) (delay order : ℕ) (th : List ℚ)
    (hd1 : 1 ≤ delay) (hd2 : delay ≤ m.ar_order) (hlen : th.length + 1 = order)
    (hs : th.Pairwise (· < ·)) (hN : m.ar_order ≤ m.endog.length)
    (hmin : m.min_regime_num
      = ⌈m.min_regime_frac * ((m.endog.length - m.ar_order : ℕ) : ℚ)⌉) :
    ((∃ e, m.buildDatasets delay th order = .error e) ↔
      ∃ i, i < order ∧ ((m.regimeObsCount delay th i : ℤ) < m.min_regime_num)) ∧
    (∀ e, m.buildDatasets delay th order = .error e →
      ∃ i, e = .invalidRegime i ∧ i < order ∧
        ((m.regimeObsCount delay th i : ℤ) < m.min_regime_num)) := by
  unfold SETARState.buildDatasets
  cases hfind : (List.range order).find?
      (fun i => decide ((m.regimeObsCount delay th i : ℤ) < m.min_regime_num)) with
  | none =>
      constructor
      · constructor
        · rintro ⟨e, he⟩
          simp at he
        · rintro ⟨i, hi, hcount⟩
          have hno := List.find?_eq_none.mp hfind i (List.mem_range.mpr hi)
          simp only [decide_eq_true_eq] at hno
          exact absurd hcount hno
      · intro e he
        simp at he
  | some i =>
      have hp := List.find?_some hfind
      have hmem := List.mem_of_find?_eq_some hfind
      simp only [decide_eq_true_eq] at hp
      have hi : i < order := List.mem_range.mp hmem
      constructor
      · exact iff_of_true ⟨.invalidRegime i, rfl⟩ ⟨i, hi, hp⟩
      · intro e he
        simp only [Except.error.injEq] at he
        exact ⟨i, he.symm, hi, hp⟩

/-- Claim C4 (witness): the characterisation applied to the concrete model
(where `min_regime_num = 1 = ⌈(1/4)·4⌉`), delay 2, thresholds `[2]`. -/
theorem buildDatasets_invalid_iff_witness :
    ((∃ e, exM3.buildDatasets 2 [2] 2 = .error e) ↔
      ∃ i, i < 2 ∧ ((exM3.regimeObsCount 2 [2] i : ℤ) < exM3.min_regime_num)) ∧
    (∀ e, exM3.buildDatasets 2 [2] 2 = .error e →
      ∃ i, e = .invalidRegime i ∧ i < 2 ∧
        ((exM3.regimeObsCount 2 [2] i : ℤ) < exM3.min_regime_num)) :=
  buildDatasets_invalid_iff exM3 2 2 [2] (by decide) (by decide) (by decide)
    (by decide) (by decide) (by norm_num [exM3])

/-! ## The grid search accumulator (claims C9 and C3) -/

/-- Characterisation of the accumulating loop: a successful run either never
updated (every scored candidate is at most the initial maximum) or its result
is the *first* candidate attaining the final maximum — all earlier candidates
score strictly below it, all later ones at most it, and candidates that error
with `InvalidRegimeError` are skipped. -/
theorem gridFold_ok_spec (objective : ℕ → ℚ → Except SetarError ℚ) :
    ∀ (cands : List (ℕ × ℚ)) (p0 : Option ℕ × Option ℚ) (m0 : ℚ)
      (res : (Option ℕ × Option ℚ) × ℚ),
      gridFold objective cands p0 m0 = .ok res →
      (res = (p0, m0) ∧ ∀ c ∈ cands, ∀ v, objective c.1 c.2 = .ok v → v ≤ m0) ∨
      (∃ pre c post, cands = pre ++ c :: post ∧
        objective c.1 c.2 = .ok res.2 ∧ res.1 = (some c.1, some c.2) ∧ m0 < res.2 ∧
        (∀ x ∈ pre, ∀ v, objective x.1 x.2 = .ok v → v < res.2) ∧
        (∀ x ∈ post, ∀ v, objective x.1 x.2 = .ok v → v ≤ res.2)) := by
  intro cands
  induction cands with
  | nil =>
      intro p0 m0 res hres
      simp only [gridFold, Except.ok.injEq] at hres
      exact Or.inl ⟨hres.symm, by simp⟩
  | cons c rest ih =>
      intro p0 m0 res hres
      rw [gridFold] at hres
      cases hobj : objective c.1 c.2 with
      | ok v =>
          simp only [hobj] at hres
          by_cases hv : m0 < v
          · rw [if_pos hv] at hres
            rcases ih _ _ _ hres with ⟨hres1, hall⟩ | ⟨pre, c', post, hsplit, h1, h2, h3, h4, h5⟩
            · refine Or.inr ⟨[], c, rest, rfl, ?_, ?_, ?_, by simp, ?_⟩
              · rw [hobj, hres1]
              · rw [hres1]
              · rw [hres1]; exact hv
              · intro x hx w hw
                have hwle := hall x hx w hw
                rw [hres1]; exact hwle
            · refine Or.inr ⟨c :: pre, c', post, by rw [hsplit, List.cons_append], h1, h2,
                lt_trans hv h3, ?_, h5⟩
              intro x hx w hw
              rcases List.mem_cons.mp hx with hxc | hxpre
              · subst hxc
                rw [hobj] at hw
                cases hw
                exact h3
              · exact h4 x hxpre w hw
          · rw [if_neg hv] at hres
            rcases ih _ _ _ hres with ⟨hres1, hall⟩ | ⟨pre, c', post, hsplit, h1, h2, h3, h4, h5⟩
            · refine Or.inl ⟨hres1, ?_⟩
              intro x hx w hw
              rcases List.mem_cons.mp hx with hxc | hxrest
              · subst hxc; rw [hobj] at hw; cases hw; exact not_lt.mp hv
              · exact hall x hxrest w hw
            · refine Or.inr ⟨c :: pre, c', post, by rw [hsplit, List.cons_append], h1, h2, h3, ?_, h5⟩
              intro x hx w hw
              rcases List.mem_cons.mp hx with hxc | hxpre
              · subst hxc; rw [hobj] at hw; cases hw; exact lt_of_le_of_lt (not_lt.mp hv) h3
              · exact h4 x hxpre w hw
      | error e =>
          cases e with
          | invalidRegime i =>
              simp only [hobj] at hres
              rcases ih _ _ _ hres with ⟨hres1, hall⟩ | ⟨pre, c', post, hsplit, h1, h2, h3, h4, h5⟩
              · refine Or.inl ⟨hres1, ?_⟩
                intro x hx w hw
                rcases List.mem_cons.mp hx with hxc | hxrest
                · subst hxc; rw [hobj] at hw; cases hw
                · exact hall x hxrest w hw
              · refine Or.inr ⟨c :: pre, c', post, by rw [hsplit, List.cons_append], h1, h2, h3, ?_, h5⟩
                intro x hx w hw
                rcases List.mem_cons.mp hx with hxc | hxpre
                · subst hxc; rw [hobj] at hw; cases hw
                · exact h4 x hxpre w hw
          | valueErrorDelay => simp only [hobj] at hres; exact absurd hres (by simp)
          | valueErrorMaxDelay => simp only [hobj] at hres; exact absurd hres (by simp)
          | valueErrorThresholds => simp only [hobj] at hres; exact absurd hres (by simp)
          | axisError => simp only [hobj] at hres; exact absurd hres (by simp)
          | linAlgError => simp only [hobj] at hres; exact absurd hres (by simp)

/-- Claim C9: with the default delay grid, the seed phase enumerates candidate
delays exactly over `[2, max_delay]` in ascending order — `1` is never among
them — and a returned winner `(d, t)` with score `mo` is the first candidate
(in delay-ascending, then threshold-grid order) attaining the maximal
objective: its score is positive (the accumulator starts at `0` and updates on
strict `>`), all earlier candidates score strictly below it, all later ones at
most it. -/
theorem gridSearch_seed_delays_and_winner (m : SETARState)
    (objective : ℕ → List ℚ → Except SetarError ℚ) (thresholds : List ℚ)
    (d : ℕ) (t mo : ℚ)
    (hres : m.selectHyperparametersGrid objective thresholds none
      = .ok ((some d, some t), mo)) :
    (∀ md x, x ∈ defaultDelayGrid md ↔ 2 ≤ x ∧ x ≤ md) ∧
    (∀ md, (defaultDelayGrid md).Pairwise (· < ·)) ∧
    (∀ md, 1 ∉ defaultDelayGrid md) ∧
    0 < mo ∧
    (∃ pre post,
      m.gridCandidates (defaultDelayGrid m.max_delay) = pre ++ (d, t) :: post ∧
      objective d ((t :: thresholds).insertionSort (· ≤ ·)) = .ok mo ∧
      (∀ x ∈ pre, ∀ v,
        objective x.1 ((x.2 :: thresholds).insertionSort (· ≤ ·)) = .ok v → v < mo) ∧
      (∀ x ∈ post, ∀ v,
        objective x.1 ((x.2 :: thresholds).insertionSort (· ≤ ·)) = .ok v → v ≤ mo)) := by
  have hmem : ∀ md x, x ∈ defaultDelayGrid md ↔ 2 ≤ x ∧ x ≤ md := by
    intro md x
    unfold defaultDelayGrid
    rw [List.mem_range'_1]
    omega
  refine ⟨hmem, fun md => List.pairwise_lt_range' 2 (md - 1),
    fun md h => by have := (hmem md 1).mp h; omega, ?_, ?_⟩
  -- apply the accumulator characterisation
  all_goals {
    unfold SETARState.selectHyperparametersGrid at hres
    rcases gridFold_ok_spec _ _ _ _ _ hres with ⟨hres1, _⟩ |
      ⟨pre, c, post, hsplit, h1, h2, h3, h4, h5⟩
    · exact absurd (congrArg (fun p => p.1.1) hres1) (by simp)
    · simp only at h2
      have hc : c = (d, t) := by
        have hfst := congrArg Prod.fst h2
        have hsnd := congrArg Prod.snd h2
        simp at hfst hsnd
        cases c; simp_all
      subst hc
      first
        | exact h3
        | exact ⟨pre, post, by simpa using hsplit, h1, h4, h5⟩
  }

/-- Claim C9 (witness): in the concrete model (delay grid `[2]`, threshold grid
`[2, 3]`) with a constant positive objective, the search returns the first
candidate `(2, 2)`, and the characterisation applies to it. -/
theorem gridSearch_seed_delays_and_winner_witness :
    (∀ md x, x ∈ defaultDelayGrid md ↔ 2 ≤ x ∧ x ≤ md) ∧
    (∀ md, (defaultDelayGrid md).Pairwise (· < ·)) ∧
    (∀ md, 1 ∉ defaultDelayGrid md) ∧
    0 < (1 : ℚ) ∧
    (∃ pre post,
      exM3.gridCandidates (defaultDelayGrid exM3.max_delay) = pre ++ (2, 2) :: post ∧
      (fun (_ : ℕ) (_ : List ℚ) => (.ok 1 : Except SetarError ℚ)) 2
          (((2 : ℚ) :: []).insertionSort (· ≤ ·)) = .ok 1 ∧
      (∀ x ∈ pre, ∀ v,
        (fun (_ : ℕ) (_ : List ℚ) => (.ok 1 : Except SetarError ℚ)) x.1
          ((x.2 :: []).insertionSort (· ≤ ·)) = .ok v → v < 1) ∧
      (∀ x ∈ post, ∀ v,
        (fun (_ : ℕ) (_ : List ℚ) => (.ok 1 : Except SetarError ℚ)) x.1
          ((x.2 :: []).insertionSort (· ≤ ·)) = .ok v → v ≤ 1)) :=
  gridSearch_seed_delays_and_winner exM3 (fun _ _ => .ok 1) [] 2 2 1 (by decide)

/-! ## Error propagation out of the grid search (claim C3) -/

/-- The grid-search loop catches only `InvalidRegimeError`: as long as the
earlier candidates score or are skipped as invalid regimes, a candidate whose
objective raises `LinAlgError` aborts the whole loop with that error. -/
theorem gridFold_propagation (objective : ℕ → ℚ → Except SetarError ℚ) :
    ∀ (pre : List (ℕ × ℚ)) (c : ℕ × ℚ) (post : List (ℕ × ℚ))
      (p0 : Option ℕ × Option ℚ) (m0 : ℚ),
      (∀ x ∈ pre, (∃ v, objective x.1 x.2 = .ok v) ∨
        ∃ i, objective x.1 x.2 = .error (.invalidRegime i)) →
      objective c.1 c.2 = .error .linAlgError →
      gridFold objective (pre ++ c :: post) p0 m0 = .error .linAlgError := by
  intro pre
  induction pre with
  | nil =>
      intro c post p0 m0 _ hc
      rw [List.nil_append, gridFold]
      simp only [hc]
  | cons x rest ih =>
      intro c post p0 m0 hpre hc
      rw [List.cons_append, gridFold]
      rcases hpre x (List.mem_cons_self x rest) with ⟨v, hv⟩ | ⟨i, hi⟩
      · simp only [hv]
        by_cases h : m0 < v
        · rw [if_pos h]
          exact ih c post _ _ (fun y hy => hpre y (List.mem_cons_of_mem _ hy)) hc
        · rw [if_neg h]
          exact ih c post _ _ (fun y hy => hpre y (List.mem_cons_of_mem _ hy)) hc
      · simp only [hi]
        exact ih c post _ _ (fun y hy => hpre y (List.mem_cons_of_mem _ hy)) hc

/-- Claim C3 (amended): inside the hyperparameter grid search, only
`InvalidRegimeError` candidates are excluded; a numeric-degeneracy failure
(`LinAlgError` from a singular matrix during objective evaluation) is *not*
treated like `InvalidRegimeError` — it propagates out of the search, aborting
it. -/
theorem gridSearch_linalg_error_propagates (m : SETARState)
    (objective : ℕ → List ℚ → Except SetarError ℚ) (thresholds : List ℚ)
    (pre : List (ℕ × ℚ)) (c : ℕ × ℚ) (post : List (ℕ × ℚ))
    (hsplit : m.gridCandidates (defaultDelayGrid m.max_delay) = pre ++ c :: post)
    (hpre : ∀ x ∈ pre,
      (∃ v, objective x.1 ((x.2 :: thresholds).insertionSort (· ≤ ·)) = .ok v) ∨
      ∃ i, objective x.1 ((x.2 :: thresholds).insertionSort (· ≤ ·))
        = .error (.invalidRegime i))
    (hc : objective c.1 ((c.2 :: thresholds).insertionSort (· ≤ ·))
      = .error .linAlgError) :
    m.selectHyperparametersGrid objective thresholds none = .error .linAlgError := by
  unfold SETARState.selectHyperparametersGrid
  rw [show (none : Option (List ℕ)).getD (defaultDelayGrid m.max_delay)
      = defaultDelayGrid m.max_delay from rfl, hsplit]
  exact gridFold_propagation _ pre c post _ _ hpre hc

/-- Claim C3 (witness): an objective that always raises `LinAlgError` aborts
the concrete search at its first candidate. -/
theorem gridSearch_linalg_error_propagates_witness :
    exM3.selectHyperparametersGrid
        (fun _ _ => (.error .linAlgError : Except SetarError ℚ)) [] none
      = .error .linAlgError :=
  gridSearch_linalg_error_propagates exM3 (fun _ _ => .error .linAlgError) []
    [] (2, 2) [(2, 3)] (by decide) (by simp) rfl

/-- The cached baseline inverse Gram matrix `XX = inv(exog'exog)` that
`select_hyperparameters` computes for the concrete model. -/
def exXXc : List (List ℚ) :=
  [[35/174, -1/87, -39/58], [-1/87, 10/87, -8/29], [-39/58, -8/29, 195/58]]

/-- The cached baseline (single-regime) residuals of the concrete model. -/
def exResidsC : List ℚ := [-52/87, 91/174, 13/29, -65/174]

/-- Claim C3 (counterexample): on the concrete model, with the *actual* cached
baseline quantities (`exM3.baselineCtx` returns exactly `(exXXc, exResidsC)`),
the grid search's first candidate `(delay 2, threshold 2)` puts only rows `0`
and `2` into regime 0, so the regime-0 block `X1` has rank 2 < 3 and the inner
matrix `X1'X1 - (X'X1)'·XX·(X'X1)` is singular; `np.linalg.inv` fails and the
search returns `.error .linAlgError` — the numeric-degeneracy failure is *not*
excluded like an invalid-regime candidate; it propagates out of the search. -/
theorem gridSearch_degeneracy_propagates_out :
    exM3.baselineCtx = .ok (exXXc, exResidsC) ∧
    exM3.selectHyperparametersGrid
        (fun d t => exM3.gridSearchObjective d t exXXc exResidsC) [] none
      = .error .linAlgError := by
  have hX : exM3.exog.drop 2 = [[3, 1, 1], [2, 3, 1], [5, 2, 1], [4, 5, 1]] := by
    decide
  have har : exM3.ar_order = 2 := rfl
  constructor
  · have hE : exM3.endog.drop 2 = [2, 5, 4, 6] := by decide
    unfold SETARState.baselineCtx
    norm_num [hX, hE, har, exXXc, exResidsC, matMul, matTranspose, matVec, vecSub,
      dotL, npLinalgInv, detL, detLAux, minorL, List.range_succ]
  · have hobj : exM3.gridSearchObjective 2 [2] exXXc exResidsC
        = .error .linAlgError := by
      have hbd : exM3.buildDatasets 2 [2] 2
          = .ok ([2, 5, 4, 6],
              [[3, 1, 1, 0, 0, 0], [0, 0, 0, 2, 3, 1],
               [5, 2, 1, 0, 0, 0], [0, 0, 0, 4, 5, 1]]) := by decide
      unfold SETARState.gridSearchObjective
      norm_num [hbd, hX, har, exXXc, exResidsC, matMul, matTranspose, matSub, dotL,
        npLinalgInv, detL, detLAux, minorL, List.range_succ]
    unfold SETARState.selectHyperparametersGrid
    rw [show exM3.gridCandidates
          ((none : Option (List ℕ)).getD (defaultDelayGrid exM3.max_delay))
        = [] ++ (2, 2) :: [(2, 3)] from by decide]
    exact gridFold_propagation _ [] (2, 2) [(2, 3)] (none, none) 0 (by simp) hobj

/-! ## Non-negativity of the grid objective (claim C6) -/

open Matrix in
/-- The scalar computed on line 165 of the source,
`resids.T.dot(X1).dot(Mn).dot(X1.T).dot(resids)`, over exact rationals. -/
def gridObjectiveMat {n q : ℕ} (X1 : Matrix (Fin n) (Fin q) ℚ)
    (Mn : Matrix (Fin q) (Fin q) ℚ) (resids : Fin n → ℚ) : ℚ :=
  resids ⬝ᵥ (X1 * Mn * X1.transpose).mulVec resids

open Matrix in
/-- Quadratic forms of `1 - X·XX·X'` are non-negative when `XX` is the
two-sided inverse of `X'X`: the matrix is a symmetric idempotent
(the annihilator of the column space of `X`). -/
theorem annihilator_quadratic_nonneg {n p : ℕ} (X : Matrix (Fin n) (Fin p) ℚ)
    (XX : Matrix (Fin p) (Fin p) ℚ)
    (hXX1 : XX * (X.transpose * X) = 1) (hXX2 : X.transpose * X * XX = 1)
    (u : Fin n → ℚ) :
    0 ≤ u ⬝ᵥ ((1 - X * XX * X.transpose).mulVec u) := by
  set Q : Matrix (Fin n) (Fin n) ℚ := 1 - X * XX * X.transpose with hQ
  have hXXt : XX.transpose = XX := by
    have h1 : XX.transpose * (X.transpose * X) = 1 := by
      have := congrArg Matrix.transpose hXX2
      rwa [Matrix.transpose_mul, Matrix.transpose_mul, Matrix.transpose_transpose,
        Matrix.transpose_one] at this
    calc XX.transpose = XX.transpose * 1 := by rw [Matrix.mul_one]
      _ = XX.transpose * ((X.transpose * X) * XX) := by rw [hXX2]
      _ = (XX.transpose * (X.transpose * X)) * XX := by rw [← Matrix.mul_assoc]
      _ = 1 * XX := by rw [h1]
      _ = XX := by rw [Matrix.one_mul]
  have hQt : Q.transpose = Q := by
    rw [hQ, Matrix.transpose_sub, Matrix.transpose_one, Matrix.transpose_mul,
      Matrix.transpose_mul, Matrix.transpose_transpose, hXXt, Matrix.mul_assoc]
  have hQQ : Q * Q = Q := by
    rw [hQ]
    have hP : (X * XX * X.transpose) * (X * XX * X.transpose)
        = X * XX * X.transpose := by
      calc (X * XX * X.transpose) * (X * XX * X.transpose)
          = X * (XX * ((X.transpose * X) * XX)) * X.transpose := by
            simp only [Matrix.mul_assoc]
        _ = X * XX * X.transpose := by rw [hXX2, Matrix.mul_one]
    rw [Matrix.sub_mul, Matrix.mul_sub, Matrix.mul_sub, hP]
    simp only [Matrix.one_mul, Matrix.mul_one]
    abel
  have hsq : u ⬝ᵥ Q.mulVec u = (Q.mulVec u) ⬝ᵥ (Q.mulVec u) := by
    calc u ⬝ᵥ Q.mulVec u = u ⬝ᵥ (Q * Q).mulVec u := by rw [hQQ]
      _ = u ⬝ᵥ Q.mulVec (Q.mulVec u) := by rw [Matrix.mulVec_mulVec]
      _ = (Matrix.vecMul u Q) ⬝ᵥ (Q.mulVec u) := by rw [Matrix.dotProduct_mulVec]
      _ = (Q.transpose.mulVec u) ⬝ᵥ (Q.mulVec u) := by
            rw [← Matrix.mulVec_transpose]
      _ = (Q.mulVec u) ⬝ᵥ (Q.mulVec u) := by rw [hQt]
  rw [hsq]
  exact Finset.sum_nonneg fun i _ => mul_self_nonneg _

open Matrix in
/-- Claim C6: for every candidate on which the partitioner succeeds, if the
cached `XX` is the (exact) inverse of `X'X` and the inner matrix
`X1'X1 − (X'X1)'·XX·(X'X1)` has a (two-sided) inverse `Mn`, then the
grid-search objective `resids'·X1·Mn·X1'·resids` is non-negative in exact
arithmetic: the inner matrix is `X1'(1 − X·XX·X')X1`, a positive-semidefinite
matrix, so its inverse is positive semidefinite as well. -/
theorem gridObjectiveMat_nonneg {n p q : ℕ}
    (X : Matrix (Fin n) (Fin p) ℚ) (X1 : Matrix (Fin n) (Fin q) ℚ)
    (XX : Matrix (Fin p) (Fin p) ℚ) (Mn : Matrix (Fin q) (Fin q) ℚ)
    (resids : Fin n → ℚ)
    (hXX1 : XX * (X.transpose * X) = 1) (hXX2 : X.transpose * X * XX = 1)
    (hMn1 : (X1.transpose * X1
        - (X.transpose * X1).transpose * XX * (X.transpose * X1)) * Mn = 1)
    (hMn2 : Mn * (X1.transpose * X1
        - (X.transpose * X1).transpose * XX * (X.transpose * X1)) = 1) :
    0 ≤ gridObjectiveMat X1 Mn resids := by
  set Mninv : Matrix (Fin q) (Fin q) ℚ :=
    X1.transpose * X1 - (X.transpose * X1).transpose * XX * (X.transpose * X1)
    with hMninv
  set Q : Matrix (Fin n) (Fin n) ℚ := 1 - X * XX * X.transpose with hQ
  -- the inner matrix is the annihilator quadratic form transported through X1
  have hfact : Mninv = X1.transpose * Q * X1 := by
    rw [hMninv, hQ, Matrix.transpose_mul, Matrix.transpose_transpose,
      Matrix.mul_sub, Matrix.sub_mul, Matrix.mul_one]
    simp only [Matrix.mul_assoc]
  -- Mninv is positive semidefinite
  have hMninvPsd : ∀ w : Fin q → ℚ, 0 ≤ w ⬝ᵥ Mninv.mulVec w := by
    intro w
    have hstep : w ⬝ᵥ Mninv.mulVec w
        = (X1.mulVec w) ⬝ᵥ Q.mulVec (X1.mulVec w) := by
      calc w ⬝ᵥ Mninv.mulVec w
          = w ⬝ᵥ (X1.transpose * Q * X1).mulVec w := by rw [hfact]
        _ = w ⬝ᵥ X1.transpose.mulVec ((Q * X1).mulVec w) := by
              rw [Matrix.mul_assoc, Matrix.mulVec_mulVec]
        _ = (Matrix.vecMul w X1.transpose) ⬝ᵥ ((Q * X1).mulVec w) := by
              rw [Matrix.dotProduct_mulVec]
        _ = (X1.mulVec w) ⬝ᵥ ((Q * X1).mulVec w) := by
              rw [Matrix.vecMul_transpose]
        _ = (X1.mulVec w) ⬝ᵥ Q.mulVec (X1.mulVec w) := by
              rw [Matrix.mulVec_mulVec]
    rw [hstep]
    exact annihilator_quadratic_nonneg X XX hXX1 hXX2 (X1.mulVec w)
  -- hence Mn = Mninv⁻¹ is positive semidefinite
  have hMnPsd : ∀ w : Fin q → ℚ, 0 ≤ w ⬝ᵥ Mn.mulVec w := by
    intro w
    have hw : w = Mninv.mulVec (Mn.mulVec w) := by
      rw [Matrix.mulVec_mulVec, hMn1, Matrix.one_mulVec]
    calc (0 : ℚ) ≤ (Mn.mulVec w) ⬝ᵥ Mninv.mulVec (Mn.mulVec w) :=
          hMninvPsd (Mn.mulVec w)
      _ = (Mninv.mulVec (Mn.mulVec w)) ⬝ᵥ (Mn.mulVec w) := by
          rw [Matrix.dotProduct_comm]
      _ = w ⬝ᵥ Mn.mulVec w := by rw [← hw]
  -- rewrite the objective as a quadratic form of Mn at X1'·resids
  have hquad : gridObjectiveMat X1 Mn resids
      = (X1.transpose.mulVec resids) ⬝ᵥ Mn.mulVec (X1.transpose.mulVec resids) := by
    calc gridObjectiveMat X1 Mn resids
        = resids ⬝ᵥ X1.mulVec ((Mn * X1.transpose).mulVec resids) := by
          rw [gridObjectiveMat, Matrix.mul_assoc, Matrix.mulVec_mulVec]
      _ = (Matrix.vecMul resids X1) ⬝ᵥ ((Mn * X1.transpose).mulVec resids) := by
          rw [Matrix.dotProduct_mulVec]
      _ = (X1.transpose.mulVec resids) ⬝ᵥ ((Mn * X1.transpose).mulVec resids) := by
          rw [← Matrix.mulVec_transpose]
      _ = (X1.transpose.mulVec resids) ⬝ᵥ Mn.mulVec (X1.transpose.mulVec resids) := by
          rw [Matrix.mulVec_mulVec]
  rw [hquad]
  exact hMnPsd (X1.transpose.mulVec resids)

/-- A concrete 2×1 baseline design (`X`). -/
def exX : Matrix (Fin 2) (Fin 1) ℚ := !![1; 0]

/-- A concrete 2×1 incremental-regressor block (`X1`). -/
def exX1 : Matrix (Fin 2) (Fin 1) ℚ := !![0; 1]

/-- The inverse Gram matrix of `exX` (`XX = (X'X)⁻¹ = 1`). -/
def exXX : Matrix (Fin 1) (Fin 1) ℚ := !![1]

/-- The inverse of the inner matrix for this candidate (`Mn = 1`). -/
def exMn : Matrix (Fin 1) (Fin 1) ℚ := !![1]

/-- Concrete baseline residuals. -/
def exResids : Fin 2 → ℚ := ![3, 4]

/-- Claim C6 (witness): the non-negativity theorem applied at a concrete
well-conditioned candidate. -/
theorem gridObjectiveMat_nonneg_witness : 0 ≤ gridObjectiveMat exX1 exMn exResids :=
  gridObjectiveMat_nonneg exX exX1 exXX exMn exResids
    (by ext i j; fin_cases i; fin_cases j;
        norm_num [exX, exXX, Matrix.mul_apply, Matrix.one_apply])
    (by ext i j; fin_cases i; fin_cases j;
        norm_num [exX, exXX, Matrix.mul_apply, Matrix.one_apply])
    (by ext i j; fin_cases i; fin_cases j;
        norm_num [exX, exX1, exXX, exMn, Matrix.mul_apply, Matrix.sub_apply,
          Matrix.transpose_apply, Matrix.one_apply, Matrix.transpose, Matrix.vecHead,
          Matrix.of_apply])
    (by ext i j; fin_cases i; fin_cases j;
        norm_num [exX, exX1, exXX, exMn, Matrix.mul_apply, Matrix.sub_apply,
          Matrix.transpose_apply, Matrix.one_apply, Matrix.transpose, Matrix.vecHead,
          Matrix.of_apply])
